import Mathlib

/-!
Shallow embedding of the graph-synthesis core of `beesub.py`.

The script converts a video into a character stream and synthesizes a
circuit graph: one `Concat` source with 5 output ports, a breadth-first
fan-out tree of `Relay` splitters (each with 2 inputs and 2×5 outputs),
one `RegEx` extractor and one `Light` sink per grid cell, connected by
`Wire`s, followed by a sequential integer-id assignment pass.

Python objects are modelled by explicit identifiers: port objects become
`PortRef` values (component kind + creation index + role), the mutable
`out_nodes` deque becomes an explicit FIFO list, the global `wires` list
becomes a state field, and the `while` loop becomes fuel-indexed
recursion (fuel sufficiency is proved, which is the loop's termination).
`BuildState.pushed` and `BuildState.popped` are instrumentation fields
recording every port ever appended to / dequeued from the queue, in
order; they do not influence control flow.
-/

namespace Beesub

/-! ### Constants (beesub.py lines 16-31) -/

def WIDTH : Nat := 32
def HEIGHT : Nat := 18
def FRAMERATE : Nat := 8
def COMPONENT_ID_OFFSET : Nat := 62
def MAX_FRAMES : Nat := 16777216
def LIGHT_X_OFFSET : Int := -192
def LIGHT_Y_OFFSET : Int := 103
def REGEX_X_OFFSET : Int := -192
def REGEX_Y_OFFSET : Int := 103
def FRAME_SIZE : Nat := WIDTH * HEIGHT

/-! ### Components and node coordinates (beesub.py lines 55-106)

A `Component` carries a position and a footprint.  Every `Node` (port)
of a component renders at `(x + w / 2, y - h / 2)` — the Python
`Node.x_coord` / `Node.y_coord` read only `self.comp`, never the node's
own role. -/

structure Component where
  x_coord : Int
  y_coord : Int
  comp_width : Int
  comp_height : Int
deriving DecidableEq, Repr

/-- `Node.x_coord` (beesub.py line 61-62). -/
def node_x_coord (c : Component) : ℚ := (c.x_coord : ℚ) + (c.comp_width : ℚ) / 2

/-- `Node.y_coord` (beesub.py line 64-65). -/
def node_y_coord (c : Component) : ℚ := (c.y_coord : ℚ) - (c.comp_height : ℚ) / 2

/-- The `Concat` component, `super().__init__(-224, 71, 15, 14)`. -/
def concatComp : Component := ⟨-224, 71, 15, 14⟩

/-- A `Relay` component, `super().__init__(-207, 88, 15, 13)`. -/
def relayComp : Component := ⟨-207, 88, 15, 13⟩

/-- A `RegEx` component at grid cell `(x, y)` (beesub.py lines 142-147);
`H` is the grid height (the Python global `HEIGHT`). -/
def regexComp (H : Nat) (x y : Nat) : Component :=
  ⟨REGEX_X_OFFSET + 16 * (x : Int), REGEX_Y_OFFSET + ((H : Int) - 1 - (y : Int)) * 16, 15, 13⟩

/-- A `Light` component at grid cell `(x, y)` (beesub.py lines 171-176). -/
def lightComp (H : Nat) (x y : Nat) : Component :=
  ⟨LIGHT_X_OFFSET + 16 * (x : Int), LIGHT_Y_OFFSET + ((H : Int) - 1 - (y : Int)) * 16, 16, 16⟩

/-! ### Port and component references

Python port objects are identified by their owning component (kind plus
creation index) and their role.  Relays are numbered in creation order;
`RegEx`/`Light` components are numbered by cell creation order
`n = y * WIDTH + x` (row-major, matching the double loop). -/

inductive PortRef where
  | concatOut (i : Nat)
  | relayIn1 (r : Nat)
  | relayIn2 (r : Nat)
  | relayOut1 (r : Nat) (i : Nat)
  | relayOut2 (r : Nat) (i : Nat)
  | regexIn (n : Nat)
  | regexOut (n : Nat)
  | lightIn (n : Nat)
deriving DecidableEq, Repr

inductive CompRef where
  | concat
  | relay (r : Nat)
  | regex (n : Nat)
  | light (n : Nat)
deriving DecidableEq, Repr

/-- The component a port belongs to (`Node.comp` in the Python). -/
def PortRef.owner : PortRef → CompRef
  | .concatOut _ => .concat
  | .relayIn1 r => .relay r
  | .relayIn2 r => .relay r
  | .relayOut1 r _ => .relay r
  | .relayOut2 r _ => .relay r
  | .regexIn n => .regex n
  | .regexOut n => .regex n
  | .lightIn n => .light n

/-- The concrete `Component` record owning a reference; cell index `n`
decodes to `(x, y) = (n % W, n / W)`. -/
def compOfRef (W H : Nat) : CompRef → Component
  | .concat => concatComp
  | .relay _ => relayComp
  | .regex n => regexComp H (n % W) (n / W)
  | .light n => lightComp H (n % W) (n / W)

/-- Rendered coordinate of a port: the Python `Node.x_coord`/`y_coord`
pair, computed from the owning component only. -/
def portCoord (W H : Nat) (p : PortRef) : ℚ × ℚ :=
  (node_x_coord (compOfRef W H p.owner), node_y_coord (compOfRef W H p.owner))

/-! ### The synthesized extraction pattern (beesub.py lines 153-160) -/

/-- `RegEx.pattern`, with the grid size as explicit parameters (the
Python reads the globals `WIDTH` and `HEIGHT`).  Both offsets are
nonnegative for in-range cells, so `Nat` subtraction agrees with the
Python integer arithmetic there. -/
def patternG (W H x y : Nat) : String :=
  let px_offset := x + y * W
  let lib_offset := W * H - px_offset - 1
  "^"
    ++ (if px_offset = 0 then "" else "(?:.\x7b" ++ toString px_offset ++ "\x7d)")
    ++ "(?<px>.)"
    ++ (if lib_offset = 0 then "" else "(?:.\x7b" ++ toString lib_offset ++ "\x7d)")
    ++ "(?:.\x7b8\x7d)*?\\k<px>(?<out>.\x7b7\x7d)"

/-- `RegEx.pattern` at the script's actual grid size. -/
def pattern (x y : Nat) : String := patternG WIDTH HEIGHT x y

/-- Modelled from the spec's step-by-step description of the rule
(§4.3): a skip of exactly `n` characters, omitted when `n = 0`. -/
def skipPart (n : Nat) : String :=
  if n = 0 then "" else "(?:.\x7b" ++ toString n ++ "\x7d)"

/-- Modelled from the spec's step-by-step description of the rule
(§4.3): anchor `'^'`, skip `off`, capture one anchor character, skip
`tl`, lazily repeat 8-character blocks, back-reference the anchor,
capture 7 characters. -/
def patternSpec (off tl : Nat) : String :=
  "^" ++ skipPart off ++ "(?<px>.)" ++ skipPart tl
    ++ "(?:.\x7b8\x7d)*?" ++ "\\k<px>" ++ "(?<out>.\x7b7\x7d)"

/-! ### Fan-out tree builder (beesub.py lines 252-262) -/

/-- State of the builder loop: the `out_nodes` deque, the global
`wires` list (as endpoint pairs, `(node_start, node_end)`), the length
of `relays`, plus the two instrumentation histories. -/
structure BuildState where
  queue : List PortRef
  wires : List (PortRef × PortRef)
  relayCount : Nat
  pushed : List PortRef
  popped : List PortRef
deriving DecidableEq, Repr

/-- `concat.signal_out`: the source's fan-out ports (`F = 5` in the
script). -/
def concatOutPorts (F : Nat) : List PortRef :=
  (List.range F).map PortRef.concatOut

/-- `relay.signal_out1` for relay `r` (5 ports). -/
def relayOut1Ports (r : Nat) : List PortRef :=
  (List.range 5).map (PortRef.relayOut1 r)

/-- `relay.signal_out2` for relay `r` (5 ports). -/
def relayOut2Ports (r : Nat) : List PortRef :=
  (List.range 5).map (PortRef.relayOut2 r)

/-- One iteration of the `while len(out_nodes) < WIDTH * HEIGHT` body:
create a relay, wire a dequeued port to `signal_in1`, extend the queue
with `signal_out1`; if the queue is still short, wire a second dequeued
port to `signal_in2` and extend with `signal_out2`.  `none` models the
`IndexError` a `popleft` from an empty deque would raise. -/
def buildStep (C : Nat) (s : BuildState) : Option BuildState :=
  match s.queue with
  | [] => none
  | p1 :: q1 =>
    let r := s.relayCount
    let q2 := q1 ++ relayOut1Ports r
    if q2.length < C then
      match q2 with
      | [] => none
      | p2 :: q3 =>
        some { queue := q3 ++ relayOut2Ports r,
               wires := s.wires ++ [(p1, PortRef.relayIn1 r), (p2, PortRef.relayIn2 r)],
               relayCount := r + 1,
               pushed := s.pushed ++ relayOut1Ports r ++ relayOut2Ports r,
               popped := s.popped ++ [p1, p2] }
    else
      some { queue := q2,
             wires := s.wires ++ [(p1, PortRef.relayIn1 r)],
             relayCount := r + 1,
             pushed := s.pushed ++ relayOut1Ports r,
             popped := s.popped ++ [p1] }

/-- The builder loop, as fuel-indexed recursion.  A `some` result means
the loop ran to completion (every dequeue succeeded); fuel `C` is
proved sufficient below, which is the loop's termination argument. -/
def build (fuel C : Nat) (s : BuildState) : Option BuildState :=
  match fuel with
  | 0 => if s.queue.length < C then none else some s
  | fuel + 1 =>
    if s.queue.length < C then
      match buildStep C s with
      | none => none
      | some s' => build fuel C s'
    else some s

/-- `out_nodes = collections.deque(concat.signal_out)` with empty
`wires`/`relays` (beesub.py lines 252-253). -/
def initState (F : Nat) : BuildState :=
  { queue := concatOutPorts F, wires := [], relayCount := 0,
    pushed := concatOutPorts F, popped := [] }

/-- The whole fan-out builder phase for target count `C` and source
fan-out `F`. -/
def builderRun (C F : Nat) : Option BuildState :=
  build C C (initState F)

/-! ### Per-cell wiring (beesub.py lines 264-271) -/

/-- State of the per-cell loop: the remaining deque and the global
`wires` list (carried over from the builder). -/
structure CellState where
  queue : List PortRef
  wires : List (PortRef × PortRef)
deriving DecidableEq, Repr

/-- Body of the double loop for cell `(x, y)`: create `RegEx(x, y)` and
`Light(x, y)` (creation index `n = y * W + x`), wire a dequeued port to
`regex.signal_in` and `regex.signal_out` to `light.set_color`.  `none`
models the `IndexError` of a `popleft` from an exhausted deque. -/
def cellStep (W : Nat) (xy : Nat × Nat) (s : CellState) : Option CellState :=
  match s.queue with
  | [] => none
  | p :: q =>
    let n := xy.2 * W + xy.1
    some { queue := q,
           wires := s.wires ++ [(p, PortRef.regexIn n), (PortRef.regexOut n, PortRef.lightIn n)] }

/-- The per-cell wiring loop over a list of cells. -/
def runCells (W : Nat) : List (Nat × Nat) → CellState → Option CellState
  | [], s => some s
  | xy :: rest, s =>
    match cellStep W xy s with
    | none => none
    | some s' => runCells W rest s'

/-- The iteration order of the double loop: `y` outer over
`0..H-1`, `x` inner over `0..W-1` (row-major). -/
def cells (W H : Nat) : List (Nat × Nat) :=
  (List.range H).flatMap (fun y => (List.range W).map (fun x => (x, y)))

/-! ### Whole-graph synthesis and id assignment (beesub.py lines 250-295) -/

/-- The frozen topology handed to the id-assignment pass: the relay
count, the cell count (`= len(regexs) = len(lights)`), the full wire
list in creation order, and each cell's synthesized pattern. -/
structure SynthGraph where
  relayCount : Nat
  cellCount : Nat
  wires : List (PortRef × PortRef)
  patterns : List String
deriving DecidableEq, Repr

/-- The graph-synthesis section: builder phase then per-cell phase.
`none` models an uncaught `IndexError` (queue exhausted). -/
def synthesize (W H F : Nat) : Option SynthGraph :=
  match build (W * H) (W * H) (initState F) with
  | none => none
  | some b =>
    match runCells W (cells W H) { queue := b.queue, wires := b.wires } with
    | none => none
    | some c =>
      some { relayCount := b.relayCount,
             cellCount := W * H,
             wires := c.wires,
             patterns := (cells W H).map (fun xy => patternG W H xy.1 xy.2) }

/-- `relays[i].id = COMPONENT_ID_OFFSET + i` (beesub.py lines 274-275). -/
def relayIdList (g : SynthGraph) : List Nat :=
  (List.range g.relayCount).map (fun i => COMPONENT_ID_OFFSET + i)

/-- `regexs[i].id = COMPONENT_ID_OFFSET + len(relays) + i`. -/
def regexIdList (g : SynthGraph) : List Nat :=
  (List.range g.cellCount).map (fun i => COMPONENT_ID_OFFSET + g.relayCount + i)

/-- `lights[i].id = COMPONENT_ID_OFFSET + len(relays) + len(regexs) + i`. -/
def lightIdList (g : SynthGraph) : List Nat :=
  (List.range g.cellCount).map (fun i => COMPONENT_ID_OFFSET + g.relayCount + g.cellCount + i)

/-- `offset_id = COMPONENT_ID_OFFSET + len(relays) + len(regexs) + len(lights)`
(beesub.py line 283). -/
def offset_id (g : SynthGraph) : Nat :=
  COMPONENT_ID_OFFSET + g.relayCount + g.cellCount + g.cellCount

/-- `wires[i].id = offset_id + i` (beesub.py lines 284-285). -/
def wireIdList (g : SynthGraph) : List Nat :=
  (List.range g.wires.length).map (fun i => offset_id g + i)

/-- The wire-id copy loop (beesub.py lines 284-287): walk the wires in
order, setting both endpoints' `wire_id` to the wire's id; later
assignments overwrite earlier ones, mirroring the mutable field. -/
def wireAddrAux (base : Nat) : List (PortRef × PortRef) → (PortRef → Option Nat) → PortRef → Option Nat
  | [], m => m
  | w :: rest, m =>
    wireAddrAux (base + 1) rest
      (fun p => if p = w.1 ∨ p = w.2 then some base else m p)

/-- Final `wire_id` field of each port after the assignment pass
(`None` for ports no wire ends at). -/
def wireAddr (g : SynthGraph) : PortRef → Option Nat :=
  wireAddrAux (offset_id g) g.wires (fun _ => none)

/-! ### The surrounding script (beesub.py lines 221-252)

`assert len(template['vid_data']) <= MAX_FRAMES * WIDTH * HEIGHT`
(line 225) runs before any graph component or wire is created
(lines 252 onward). -/

inductive ScriptError where
  | assertFailed
  | queueExhausted
deriving DecidableEq, Repr

/-- The script from the resource-limit assert onward, as a function of
the character-stream length: a failing assert aborts the run before the
synthesis section executes. -/
def script (vidLen : Nat) : Except ScriptError SynthGraph :=
  if vidLen ≤ MAX_FRAMES * WIDTH * HEIGHT then
    match synthesize WIDTH HEIGHT 5 with
    | some g => Except.ok g
    | none => Except.error ScriptError.queueExhausted
  else Except.error ScriptError.assertFailed

/-! ### Derived descriptions of builder states

`relayPushes k` is the list of all splitter output ports pushed by `k`
fully-wired relays, in push order; `relayIns k` is the list of relay
input ports wired by `k` fully-wired relays, in wiring order. -/

def relayPushes : Nat → List PortRef
  | 0 => []
  | k + 1 => relayPushes k ++ (relayOut1Ports k ++ relayOut2Ports k)

def relayIns : Nat → List PortRef
  | 0 => []
  | k + 1 => relayIns k ++ [PortRef.relayIn1 k, PortRef.relayIn2 k]

/-- A legal wire *start* while `r` relays exist: one of the source's
`F` fan-out ports, or an output port of an earlier relay. -/
def StartOK (F r : Nat) (p : PortRef) : Prop :=
  (∃ i < F, p = PortRef.concatOut i) ∨
  (∃ r' < r, ∃ i < 5, p = PortRef.relayOut1 r' i ∨ p = PortRef.relayOut2 r' i)

/-- A builder-phase wire: its end is a relay input, its start is a port
available strictly before that relay was created. -/
def WireOK (F : Nat) (w : PortRef × PortRef) : Prop :=
  ∃ r, (w.2 = PortRef.relayIn1 r ∨ w.2 = PortRef.relayIn2 r) ∧ StartOK F r w.1

/-- Loop invariant of the builder at the top of the `while` loop: the
push history splits as popped-then-queued, all relays so far are fully
wired, and the queue holds exactly `F + 8 * relayCount` ports. -/
def MidInv (F : Nat) (s : BuildState) : Prop :=
  s.pushed = s.popped ++ s.queue ∧
  s.pushed = concatOutPorts F ++ relayPushes s.relayCount ∧
  s.popped = s.wires.map Prod.fst ∧
  s.wires.map Prod.snd = relayIns s.relayCount ∧
  s.queue.length = F + 8 * s.relayCount ∧
  ∀ w ∈ s.wires, WireOK F w

/-- Exact description of the builder's final state, started from a
state with `r₀` relays: either every relay is fully wired, or the last
relay's second input was skipped because the queue reached `C` after
its first-branch outputs were pushed. -/
def BuildResult (C F r₀ k : Nat) (t : BuildState) : Prop :=
  t.relayCount = k ∧
  t.pushed = t.popped ++ t.queue ∧
  t.popped = t.wires.map Prod.fst ∧
  C ≤ t.queue.length ∧
  (∀ w ∈ t.wires, WireOK F w) ∧
  ((t.pushed = concatOutPorts F ++ relayPushes k ∧
    t.wires.map Prod.snd = relayIns k ∧
    t.queue.length = F + 8 * k ∧
    (k = r₀ ∨ F + 8 * (k - 1) + 4 < C)) ∨
   (r₀ < k ∧ F + 8 * (k - 1) < C ∧ C ≤ F + 8 * (k - 1) + 4 ∧
    t.pushed = concatOutPorts F ++ relayPushes (k - 1) ++ relayOut1Ports (k - 1) ∧
    t.wires.map Prod.snd = relayIns (k - 1) ++ [PortRef.relayIn1 (k - 1)] ∧
    t.queue.length = F + 8 * (k - 1) + 4))

/-- The wires created by the per-cell loop, as a function of the queue
ports consumed and the cell indices `n = y * W + x` used, in order. -/
def cellWiresIdx : List PortRef → List Nat → List (PortRef × PortRef)
  | p :: qs, n :: ns =>
    (p, PortRef.regexIn n) :: (PortRef.regexOut n, PortRef.lightIn n) :: cellWiresIdx qs ns
  | _, _ => []

/-- Two wires sharing no endpoint port. -/
def wireDisjoint (w w' : PortRef × PortRef) : Prop :=
  w.1 ≠ w'.1 ∧ w.1 ≠ w'.2 ∧ w.2 ≠ w'.1 ∧ w.2 ≠ w'.2

/-- A port that can sit in the builder's queue: a source fan-out port
or a splitter output port. -/
def BuilderOut (p : PortRef) : Prop :=
  (∃ i, p = PortRef.concatOut i) ∨
  (∃ r i, p = PortRef.relayOut1 r i) ∨ (∃ r i, p = PortRef.relayOut2 r i)

/-- The builder's final state for target count `6` and fan-out `5`: one
relay whose second input stays unwired and whose `signal_out2` ports
are never pushed. -/
def halfRelayState : BuildState :=
  { queue := [PortRef.concatOut 1, PortRef.concatOut 2, PortRef.concatOut 3,
              PortRef.concatOut 4, PortRef.relayOut1 0 0, PortRef.relayOut1 0 1,
              PortRef.relayOut1 0 2, PortRef.relayOut1 0 3, PortRef.relayOut1 0 4],
    wires := [(PortRef.concatOut 0, PortRef.relayIn1 0)],
    relayCount := 1,
    pushed := [PortRef.concatOut 0, PortRef.concatOut 1, PortRef.concatOut 2,
               PortRef.concatOut 3, PortRef.concatOut 4, PortRef.relayOut1 0 0,
               PortRef.relayOut1 0 1, PortRef.relayOut1 0 2, PortRef.relayOut1 0 3,
               PortRef.relayOut1 0 4],
    popped := [PortRef.concatOut 0] }

/-- The graph the synthesis section produces for a 2×1 grid with
fan-out 5 (the spec's concrete scenario: zero splitters, two cells). -/
def sampleGraph : SynthGraph :=
  { relayCount := 0, cellCount := 2,
    wires := [(PortRef.concatOut 0, PortRef.regexIn 0),
              (PortRef.regexOut 0, PortRef.lightIn 0),
              (PortRef.concatOut 1, PortRef.regexIn 1),
              (PortRef.regexOut 1, PortRef.lightIn 1)],
    patterns := [patternG 2 1 0 0, patternG 2 1 1 0] }

/-! ## Lemmas -/

theorem mem_concatOutPorts {F : Nat} {p : PortRef} :
    p ∈ concatOutPorts F ↔ ∃ i < F, p = PortRef.concatOut i := by
  simp [concatOutPorts, eq_comm]

theorem mem_relayOut1Ports {r : Nat} {p : PortRef} :
    p ∈ relayOut1Ports r ↔ ∃ i < 5, p = PortRef.relayOut1 r i := by
  simp [relayOut1Ports, eq_comm]

theorem mem_relayOut2Ports {r : Nat} {p : PortRef} :
    p ∈ relayOut2Ports r ↔ ∃ i < 5, p = PortRef.relayOut2 r i := by
  simp [relayOut2Ports, eq_comm]

theorem mem_relayPushes {k : Nat} {p : PortRef} :
    p ∈ relayPushes k ↔
      ∃ r < k, ∃ i < 5, p = PortRef.relayOut1 r i ∨ p = PortRef.relayOut2 r i := by
  induction k with
  | zero => simp [relayPushes]
  | succ k ih =>
    simp only [relayPushes, List.mem_append, ih, mem_relayOut1Ports, mem_relayOut2Ports]
    constructor
    · rintro ((⟨r, hr, i, hi, h⟩) | (⟨i, hi, h⟩) | (⟨i, hi, h⟩))
      · exact ⟨r, by omega, i, hi, h⟩
      · exact ⟨k, by omega, i, hi, Or.inl h⟩
      · exact ⟨k, by omega, i, hi, Or.inr h⟩
    · rintro ⟨r, hr, i, hi, h⟩
      rcases Nat.lt_succ_iff_lt_or_eq.1 hr with hr' | rfl
      · exact Or.inl ⟨r, hr', i, hi, h⟩
      · rcases h with h | h
        · exact Or.inr (Or.inl ⟨i, hi, h⟩)
        · exact Or.inr (Or.inr ⟨i, hi, h⟩)

theorem mem_relayIns {k : Nat} {p : PortRef} :
    p ∈ relayIns k ↔ ∃ r < k, p = PortRef.relayIn1 r ∨ p = PortRef.relayIn2 r := by
  induction k with
  | zero => simp [relayIns]
  | succ k ih =>
    simp only [relayIns, List.mem_append, ih]
    constructor
    · rintro ((⟨r, hr, h⟩) | h)
      · exact ⟨r, by omega, h⟩
      · simp only [List.mem_cons, List.mem_singleton, List.not_mem_nil, or_false] at h
        exact ⟨k, by omega, h⟩
    · rintro ⟨r, hr, h⟩
      rcases Nat.lt_succ_iff_lt_or_eq.1 hr with hr' | rfl
      · exact Or.inl ⟨r, hr', h⟩
      · right; simpa using h

theorem startOK_of_mem {F r : Nat} {p : PortRef}
    (hp : p ∈ concatOutPorts F ++ relayPushes r) : StartOK F r p := by
  rcases List.mem_append.1 hp with h | h
  · exact Or.inl (mem_concatOutPorts.1 h)
  · exact Or.inr (mem_relayPushes.1 h)

theorem build_of_not_lt {fuel C : Nat} {s : BuildState} (h : ¬ s.queue.length < C) :
    build fuel C s = some s := by
  cases fuel <;> simp [build, h]

theorem build_result_exit {C F : Nat} {s : BuildState} (hs : MidInv F s)
    (h : C ≤ s.queue.length) :
    BuildResult C F s.relayCount (s.relayCount + (C - (F + 8 * s.relayCount) + 7) / 8) s := by
  obtain ⟨h1, h2, h3, h4, h5, h6⟩ := hs
  have hk : s.relayCount + (C - (F + 8 * s.relayCount) + 7) / 8 = s.relayCount := by omega
  rw [hk]
  exact ⟨rfl, h1, h3, h, h6, Or.inl ⟨h2, h4, h5, Or.inl rfl⟩⟩

/-- Main correctness of the fan-out builder loop: from any loop-top
state, with enough fuel, the loop completes and the final state is
exactly described by `BuildResult`. -/
theorem build_go {C F : Nat} (hF : 2 ≤ F) :
    ∀ (fuel : Nat) (s : BuildState), MidInv F s → C ≤ s.queue.length + 4 * fuel →
      ∃ t, build fuel C s = some t ∧
        BuildResult C F s.relayCount
          (s.relayCount + (C - (F + 8 * s.relayCount) + 7) / 8) t := by
  intro fuel
  induction fuel with
  | zero =>
    intro s hs hfuel
    have hnl : ¬ s.queue.length < C := by omega
    exact ⟨s, build_of_not_lt hnl, build_result_exit hs (by omega)⟩
  | succ fuel ih =>
    intro s hs hfuel
    by_cases hlt : s.queue.length < C
    · obtain ⟨h1, h2, h3, h4, h5, h6⟩ := hs
      obtain ⟨p1, q1, hq⟩ : ∃ p1 q1, s.queue = p1 :: q1 := by
        cases hcase : s.queue with
        | nil => rw [hcase] at h5; simp at h5; omega
        | cons a l => exact ⟨a, l, rfl⟩
      have hq1len : q1.length = F + 8 * s.relayCount - 1 := by
        rw [hq] at h5; simp at h5; omega
      have hp1 : p1 ∈ s.pushed := by rw [h1, hq]; simp
      by_cases h2lt : (q1 ++ relayOut1Ports s.relayCount).length < C
      · -- both inputs get wired; the loop continues
        have hc4 : F + 8 * s.relayCount + 4 < C := by
          have : (q1 ++ relayOut1Ports s.relayCount).length = q1.length + 5 := by
            simp [relayOut1Ports]
          omega
        obtain ⟨p2, q1', hq1⟩ : ∃ p2 q1', q1 = p2 :: q1' := by
          cases hcase : q1 with
          | nil => rw [hcase] at hq1len; simp at hq1len; omega
          | cons a l => exact ⟨a, l, rfl⟩
        have hp2 : p2 ∈ s.pushed := by rw [h1, hq, hq1]; simp
        have hq1'len : q1'.length = F + 8 * s.relayCount - 2 := by
          rw [hq1] at hq1len; simp at hq1len; omega
        have hstep : buildStep C s = some
            { queue := (q1' ++ relayOut1Ports s.relayCount) ++ relayOut2Ports s.relayCount,
              wires := s.wires ++ [(p1, PortRef.relayIn1 s.relayCount),
                                   (p2, PortRef.relayIn2 s.relayCount)],
              relayCount := s.relayCount + 1,
              pushed := s.pushed ++ relayOut1Ports s.relayCount ++ relayOut2Ports s.relayCount,
              popped := s.popped ++ [p1, p2] } := by
          have h2lt' : (p2 :: (q1' ++ relayOut1Ports s.relayCount)).length < C := by
            rw [hq1] at h2lt; simpa using h2lt
          simp only [buildStep, hq, hq1, List.cons_append]
          rw [if_pos h2lt']
        have hmid' : MidInv F
            { queue := (q1' ++ relayOut1Ports s.relayCount) ++ relayOut2Ports s.relayCount,
              wires := s.wires ++ [(p1, PortRef.relayIn1 s.relayCount),
                                   (p2, PortRef.relayIn2 s.relayCount)],
              relayCount := s.relayCount + 1,
              pushed := s.pushed ++ relayOut1Ports s.relayCount ++ relayOut2Ports s.relayCount,
              popped := s.popped ++ [p1, p2] } := by
          refine ⟨?_, ?_, ?_, ?_, ?_, ?_⟩
          · rw [h1, hq, hq1]; simp
          · rw [h2]; simp [relayPushes]
          · simp [h3]
          · simp [h4, relayIns]
          · simp [relayOut1Ports, relayOut2Ports]; omega
          · intro w hw
            rcases List.mem_append.1 hw with hw | hw
            · exact h6 w hw
            · have hs1 : StartOK F s.relayCount p1 := startOK_of_mem (h2 ▸ hp1)
              have hs2 : StartOK F s.relayCount p2 := startOK_of_mem (h2 ▸ hp2)
              simp only [List.mem_cons, List.not_mem_nil, or_false] at hw
              rcases hw with hw | hw
              · exact hw ▸ ⟨s.relayCount, Or.inl rfl, hs1⟩
              · exact hw ▸ ⟨s.relayCount, Or.inr rfl, hs2⟩
        have hfuel' : C ≤ ((q1' ++ relayOut1Ports s.relayCount) ++
            relayOut2Ports s.relayCount).length + 4 * fuel := by
          have : ((q1' ++ relayOut1Ports s.relayCount) ++ relayOut2Ports s.relayCount).length
              = q1'.length + 10 := by simp [relayOut1Ports, relayOut2Ports]
          omega
        obtain ⟨t, hb, hres⟩ := ih _ hmid' hfuel'
        refine ⟨t, ?_, ?_⟩
        · simp only [build]
          rw [if_pos hlt, hstep]
          exact hb
        · have hkeq : (s.relayCount + 1) + (C - (F + 8 * (s.relayCount + 1)) + 7) / 8
              = s.relayCount + (C - (F + 8 * s.relayCount) + 7) / 8 := by omega
          simp only [hkeq] at hres
          obtain ⟨hA, hB, hC', hD, hE, hcase⟩ := hres
          refine ⟨hA, hB, hC', hD, hE, ?_⟩
          rcases hcase with ⟨x1, x2, x3, x4⟩ | ⟨x1, x2, x3, x4, x5, x6⟩
          · refine Or.inl ⟨x1, x2, x3, ?_⟩
            rcases x4 with hk | hlt4
            · right; omega
            · exact Or.inr hlt4
          · exact Or.inr ⟨by omega, x2, x3, x4, x5, x6⟩
      · -- the queue reached `C` after the first branch: second input skipped
        have hc4 : C ≤ F + 8 * s.relayCount + 4 := by
          have : (q1 ++ relayOut1Ports s.relayCount).length = q1.length + 5 := by
            simp [relayOut1Ports]
          omega
        have hstep : buildStep C s = some
            { queue := q1 ++ relayOut1Ports s.relayCount,
              wires := s.wires ++ [(p1, PortRef.relayIn1 s.relayCount)],
              relayCount := s.relayCount + 1,
              pushed := s.pushed ++ relayOut1Ports s.relayCount,
              popped := s.popped ++ [p1] } := by
          simp only [buildStep, hq]
          rw [if_neg h2lt]
        have hlen' : (q1 ++ relayOut1Ports s.relayCount).length
            = F + 8 * s.relayCount + 4 := by
          simp [relayOut1Ports]; omega
        have hk1 : s.relayCount + (C - (F + 8 * s.relayCount) + 7) / 8
            = s.relayCount + 1 := by omega
        refine ⟨{ queue := q1 ++ relayOut1Ports s.relayCount,
                  wires := s.wires ++ [(p1, PortRef.relayIn1 s.relayCount)],
                  relayCount := s.relayCount + 1,
                  pushed := s.pushed ++ relayOut1Ports s.relayCount,
                  popped := s.popped ++ [p1] }, ?_, ?_⟩
        · simp only [build]
          rw [if_pos hlt, hstep]
          exact build_of_not_lt
            (by show ¬ (q1 ++ relayOut1Ports s.relayCount).length < C; omega)
        · rw [hk1]
          refine ⟨rfl, ?_, ?_, ?_, ?_, ?_⟩
          · rw [h1, hq]; simp
          · simp [h3]
          · simpa [hlen'] using hc4
          · intro w hw
            rcases List.mem_append.1 hw with hw | hw
            · exact h6 w hw
            · have hs1 : StartOK F s.relayCount p1 := startOK_of_mem (h2 ▸ hp1)
              simp only [List.mem_singleton] at hw
              exact hw ▸ ⟨s.relayCount, Or.inl rfl, hs1⟩
          · refine Or.inr ⟨by omega, by omega, by simpa using hc4, ?_, ?_, ?_⟩
            · rw [h2]; simp
            · simp [h4]
            · simpa using hlen'
    · exact ⟨s, build_of_not_lt hlt, build_result_exit hs (by omega)⟩

/-- Top-level builder correctness: started from the source's `F`
fan-out ports with fuel `C`, the loop completes and produces exactly
`(C - F + 7) / 8 = ⌈(C - F) / 8⌉` splitters. -/
theorem builderRun_spec {C F : Nat} (hF : 2 ≤ F) :
    ∃ t, builderRun C F = some t ∧ BuildResult C F 0 ((C - F + 7) / 8) t := by
  have hinit : MidInv F (initState F) := by
    refine ⟨rfl, ?_, rfl, ?_, ?_, ?_⟩
    · simp [initState, relayPushes]
    · simp [initState, relayIns]
    · simp [initState, concatOutPorts]
    · simp [initState]
  have hfuel : C ≤ (initState F).queue.length + 4 * C := by
    have : (initState F).queue.length = F := by simp [initState, concatOutPorts]
    omega
  obtain ⟨t, hb, hres⟩ := build_go hF C (initState F) hinit hfuel
  have h0 : (initState F).relayCount = 0 := rfl
  rw [h0] at hres
  have hk : 0 + (C - (F + 8 * 0) + 7) / 8 = (C - F + 7) / 8 := by omega
  rw [hk] at hres
  exact ⟨t, hb, hres⟩

/-- The per-cell loop never fails when it starts with at least as many
queued ports as cells; it consumes exactly one port per cell and
appends exactly the per-cell wires, in order. -/
theorem runCells_spec (W : Nat) :
    ∀ (ps : List (Nat × Nat)) (s : CellState), ps.length ≤ s.queue.length →
      runCells W ps s = some
        { queue := s.queue.drop ps.length,
          wires := s.wires ++ cellWiresIdx (s.queue.take ps.length)
                     (ps.map (fun xy => xy.2 * W + xy.1)) } := by
  intro ps
  induction ps with
  | nil =>
    intro s h
    simp [runCells, cellWiresIdx]
  | cons xy rest ih =>
    intro s h
    obtain ⟨p, q, hq⟩ : ∃ p q, s.queue = p :: q := by
      cases hcase : s.queue with
      | nil => rw [hcase] at h; simp at h
      | cons a l => exact ⟨a, l, rfl⟩
    have hstep : cellStep W xy s = some
        { queue := q,
          wires := s.wires ++ [(p, PortRef.regexIn (xy.2 * W + xy.1)),
                               (PortRef.regexOut (xy.2 * W + xy.1),
                                PortRef.lightIn (xy.2 * W + xy.1))] } := by
      simp only [cellStep, hq]
    have hlen : rest.length ≤ q.length := by
      rw [hq] at h; simpa using h
    have hrec := ih
      { queue := q,
        wires := s.wires ++ [(p, PortRef.regexIn (xy.2 * W + xy.1)),
          (PortRef.regexOut (xy.2 * W + xy.1), PortRef.lightIn (xy.2 * W + xy.1))] }
      hlen
    simp only [runCells, hstep]
    rw [hrec]
    simp [hq, cellWiresIdx, List.append_assoc]

/-- The row-major cell list enumerates exactly the creation indices
`0, 1, ..., H*W - 1`. -/
theorem cells_map_idx (W H : Nat) :
    (cells W H).map (fun xy => xy.2 * W + xy.1) = List.range (H * W) := by
  induction H with
  | zero => simp [cells]
  | succ H ih =>
    simp only [cells] at ih ⊢
    rw [List.range_succ, List.flatMap_append, List.map_append, ih, Nat.succ_mul,
      List.range_add]
    simp [List.map_map, Function.comp]

theorem cells_length (W H : Nat) : (cells W H).length = H * W := by
  have h := congrArg List.length (cells_map_idx W H)
  simpa using h

theorem concatOutPorts_nodup (F : Nat) : (concatOutPorts F).Nodup :=
  List.Nodup.map (fun a b h => by injection h) (List.nodup_range F)

theorem relayOut1Ports_nodup (r : Nat) : (relayOut1Ports r).Nodup :=
  List.Nodup.map (fun a b h => by injection h) (List.nodup_range 5)

theorem relayOut2Ports_nodup (r : Nat) : (relayOut2Ports r).Nodup :=
  List.Nodup.map (fun a b h => by injection h) (List.nodup_range 5)

theorem relayPushes_nodup : ∀ k, (relayPushes k).Nodup
  | 0 => by simp [relayPushes]
  | k + 1 => by
    refine List.Nodup.append (relayPushes_nodup k) ?_ ?_
    · refine List.Nodup.append (relayOut1Ports_nodup k) (relayOut2Ports_nodup k) ?_
      intro a h1 h2
      rcases mem_relayOut1Ports.1 h1 with ⟨i, hi, rfl⟩
      rcases mem_relayOut2Ports.1 h2 with ⟨j, hj, h⟩
      cases h
    · intro a h1 h2
      rcases mem_relayPushes.1 h1 with ⟨r, hr, i, hi, rfl | rfl⟩ <;>
        rcases List.mem_append.1 h2 with h2 | h2 <;>
        first
          | (rcases mem_relayOut1Ports.1 h2 with ⟨j, hj, h⟩; injection h; omega)
          | (rcases mem_relayOut2Ports.1 h2 with ⟨j, hj, h⟩; injection h; omega)
          | (rcases mem_relayOut1Ports.1 h2 with ⟨j, hj, h⟩; cases h)
          | (rcases mem_relayOut2Ports.1 h2 with ⟨j, hj, h⟩; cases h)

theorem relayIns_nodup : ∀ k, (relayIns k).Nodup
  | 0 => by simp [relayIns]
  | k + 1 => by
    refine List.Nodup.append (relayIns_nodup k) (by simp) ?_
    intro a h1 h2
    rcases mem_relayIns.1 h1 with ⟨r, hr, rfl | rfl⟩ <;>
      simp only [List.mem_cons, List.not_mem_nil, or_false] at h2 <;>
      rcases h2 with h | h <;> first | (injection h; omega) | cases h

theorem pushed_full_nodup (F k : Nat) : (concatOutPorts F ++ relayPushes k).Nodup := by
  refine List.Nodup.append (concatOutPorts_nodup F) (relayPushes_nodup k) ?_
  intro a h1 h2
  rcases mem_concatOutPorts.1 h1 with ⟨i, hi, rfl⟩
  rcases mem_relayPushes.1 h2 with ⟨r, hr, j, hj, h | h⟩ <;> cases h

theorem pushed_half_nodup (F k : Nat) :
    (concatOutPorts F ++ relayPushes k ++ relayOut1Ports k).Nodup := by
  refine List.Nodup.append (pushed_full_nodup F k) (relayOut1Ports_nodup k) ?_
  intro a h1 h2
  rcases mem_relayOut1Ports.1 h2 with ⟨j, hj, rfl⟩
  rcases List.mem_append.1 h1 with h1 | h1
  · rcases mem_concatOutPorts.1 h1 with ⟨i, hi, h⟩; cases h
  · rcases mem_relayPushes.1 h1 with ⟨r, hr, i, hi, h | h⟩
    · injection h; omega
    · cases h

theorem ends_half_nodup (k : Nat) :
    (relayIns k ++ [PortRef.relayIn1 k]).Nodup := by
  refine List.Nodup.append (relayIns_nodup k) (by simp) ?_
  intro a h1 h2
  rcases mem_relayIns.1 h1 with ⟨r, hr, rfl | rfl⟩ <;>
    simp only [List.mem_singleton] at h2 <;>
    first | (injection h2; omega) | cases h2

theorem builderOut_of_mem_full {F k : Nat} {p : PortRef}
    (h : p ∈ concatOutPorts F ++ relayPushes k) : BuilderOut p := by
  rcases List.mem_append.1 h with h | h
  · rcases mem_concatOutPorts.1 h with ⟨i, hi, rfl⟩
    exact Or.inl ⟨i, rfl⟩
  · rcases mem_relayPushes.1 h with ⟨r, hr, i, hi, rfl | rfl⟩
    · exact Or.inr (Or.inl ⟨r, i, rfl⟩)
    · exact Or.inr (Or.inr ⟨r, i, rfl⟩)

theorem builderOut_of_mem_half {F k : Nat} {p : PortRef}
    (h : p ∈ concatOutPorts F ++ relayPushes k ++ relayOut1Ports k) : BuilderOut p := by
  rcases List.mem_append.1 h with h | h
  · exact builderOut_of_mem_full h
  · rcases mem_relayOut1Ports.1 h with ⟨i, hi, rfl⟩
    exact Or.inr (Or.inl ⟨k, i, rfl⟩)

theorem builderOut_ne {p : PortRef} (h : BuilderOut p) :
    (∀ n, p ≠ PortRef.regexIn n) ∧ (∀ n, p ≠ PortRef.regexOut n) ∧
    (∀ n, p ≠ PortRef.lightIn n) ∧
    (∀ r, p ≠ PortRef.relayIn1 r) ∧ (∀ r, p ≠ PortRef.relayIn2 r) := by
  rcases h with ⟨i, rfl⟩ | ⟨r, i, rfl⟩ | ⟨r, i, rfl⟩ <;>
    refine ⟨fun n h => ?_, fun n h => ?_, fun n h => ?_, fun r' h => ?_, fun r' h => ?_⟩ <;>
    cases h

/-- A wire list whose starts are distinct, whose ends are distinct, and
whose starts never equal ends is pairwise endpoint-disjoint. -/
theorem pairwise_of_maps {l : List (PortRef × PortRef)}
    (h1 : (l.map Prod.fst).Nodup) (h2 : (l.map Prod.snd).Nodup)
    (h3 : ∀ w ∈ l, ∀ w' ∈ l, w.1 ≠ w'.2) :
    l.Pairwise wireDisjoint := by
  induction l with
  | nil => simp
  | cons w rest ih =>
    simp only [List.map_cons, List.nodup_cons] at h1 h2
    refine List.Pairwise.cons ?_
      (ih h1.2 h2.2 (fun a ha b hb => h3 a (by simp [ha]) b (by simp [hb])))
    intro w' hw'
    refine ⟨?_, ?_, ?_, ?_⟩
    · intro he
      exact h1.1 (by rw [he]; exact List.mem_map_of_mem Prod.fst hw')
    · exact h3 w (by simp) w' (by simp [hw'])
    · intro he
      exact (h3 w' (by simp [hw']) w (by simp)) he.symm
    · intro he
      exact h2.1 (by rw [he]; exact List.mem_map_of_mem Prod.snd hw')

theorem mem_cellWiresIdx {w : PortRef × PortRef} :
    ∀ (Q : List PortRef) (N : List Nat), w ∈ cellWiresIdx Q N →
      (∃ q ∈ Q, ∃ n ∈ N, w = (q, PortRef.regexIn n)) ∨
      (∃ n ∈ N, w = (PortRef.regexOut n, PortRef.lightIn n))
  | [], N => by simp [cellWiresIdx]
  | p :: qs, [] => by simp [cellWiresIdx]
  | p :: qs, n :: ns => by
    intro h
    rcases List.mem_cons.1 h with rfl | h
    · exact Or.inl ⟨p, by simp, n, by simp, rfl⟩
    rcases List.mem_cons.1 h with rfl | h
    · exact Or.inr ⟨n, by simp, rfl⟩
    rcases mem_cellWiresIdx qs ns h with ⟨q, hq, m, hm, he⟩ | ⟨m, hm, he⟩
    · exact Or.inl ⟨q, by simp [hq], m, by simp [hm], he⟩
    · exact Or.inr ⟨m, by simp [hm], he⟩

theorem cellWiresIdx_pairwise :
    ∀ (Q : List PortRef) (N : List Nat), Q.Nodup → N.Nodup →
      (∀ p ∈ Q, BuilderOut p) → (cellWiresIdx Q N).Pairwise wireDisjoint
  | [], N => by intro _ _ _; simp [cellWiresIdx]
  | p :: qs, [] => by intro _ _ _; simp [cellWiresIdx]
  | p :: qs, n :: ns => by
    intro hQ hN hB
    simp only [List.nodup_cons] at hQ hN
    have hBp : BuilderOut p := hB p (by simp)
    have hBrest : ∀ a ∈ qs, BuilderOut a := fun a ha => hB a (by simp [ha])
    have hBpne := builderOut_ne hBp
    refine List.Pairwise.cons ?_ (List.Pairwise.cons ?_
      (cellWiresIdx_pairwise qs ns hQ.2 hN.2 hBrest))
    · -- `(p, regexIn n)` versus everything after it
      intro w' hw'
      rcases List.mem_cons.1 hw' with rfl | hw'
      · simp only [wireDisjoint]
        exact ⟨fun he => hBpne.2.1 n he, fun he => hBpne.2.2.1 n he,
          fun he => PortRef.noConfusion he, fun he => PortRef.noConfusion he⟩
      · rcases mem_cellWiresIdx qs ns hw' with ⟨q, hq, m, hm, rfl⟩ | ⟨m, hm, rfl⟩
        · have hBq := builderOut_ne (hBrest q hq)
          have hnm : n ≠ m := fun he => hN.1 (he ▸ hm)
          simp only [wireDisjoint]
          exact ⟨fun he => hQ.1 (he ▸ hq), fun he => hBpne.1 m he,
            fun he => hBq.1 n he.symm, fun he => hnm (PortRef.regexIn.inj he)⟩
        · simp only [wireDisjoint]
          exact ⟨fun he => hBpne.2.1 m he, fun he => hBpne.2.2.1 m he,
            fun he => PortRef.noConfusion he, fun he => PortRef.noConfusion he⟩
    · -- `(regexOut n, lightIn n)` versus the remaining cell wires
      intro w' hw'
      rcases mem_cellWiresIdx qs ns hw' with ⟨q, hq, m, hm, rfl⟩ | ⟨m, hm, rfl⟩
      · have hBq := builderOut_ne (hBrest q hq)
        simp only [wireDisjoint]
        exact ⟨fun he => hBq.2.1 n he.symm, fun he => PortRef.noConfusion he,
          fun he => hBq.2.2.1 n he.symm, fun he => PortRef.noConfusion he⟩
      · have hnm : n ≠ m := fun he => hN.1 (he ▸ hm)
        simp only [wireDisjoint]
        exact ⟨fun he => hnm (PortRef.regexOut.inj he), fun he => PortRef.noConfusion he,
          fun he => PortRef.noConfusion he, fun he => hnm (PortRef.lightIn.inj he)⟩

/-- A port no wire touches keeps its previous `wire_id`. -/
theorem wireAddrAux_not_mem {p : PortRef} :
    ∀ (ws : List (PortRef × PortRef)) (base : Nat) (m : PortRef → Option Nat),
      (∀ w ∈ ws, p ≠ w.1 ∧ p ≠ w.2) → wireAddrAux base ws m p = m p
  | [], base, m => fun _ => rfl
  | w :: rest, base, m => fun h => by
    show wireAddrAux (base + 1) rest
      (fun p' => if p' = w.1 ∨ p' = w.2 then some base else m p') p = m p
    rw [wireAddrAux_not_mem rest (base + 1) _ (fun w' hw' => h w' (by simp [hw']))]
    have hw := h w (by simp)
    simp [hw.1, hw.2]

/-- After the copy loop, each endpoint of the `i`-th wire records the
`i`-th wire's id, provided the wires are pairwise endpoint-disjoint. -/
theorem wireAddrAux_spec :
    ∀ (ws : List (PortRef × PortRef)) (base : Nat) (m : PortRef → Option Nat),
      ws.Pairwise wireDisjoint →
      ∀ i (h : i < ws.length),
        wireAddrAux base ws m (ws.get ⟨i, h⟩).1 = some (base + i) ∧
        wireAddrAux base ws m (ws.get ⟨i, h⟩).2 = some (base + i)
  | [], base, m => by
    intro _ i h
    simp at h
  | w :: rest, base, m => by
    intro hp i h
    rcases List.pairwise_cons.1 hp with ⟨hw, hrest⟩
    cases i with
    | zero =>
      have hnm1 : ∀ w' ∈ rest, w.1 ≠ w'.1 ∧ w.1 ≠ w'.2 :=
        fun w' hw' => ⟨(hw w' hw').1, (hw w' hw').2.1⟩
      have hnm2 : ∀ w' ∈ rest, w.2 ≠ w'.1 ∧ w.2 ≠ w'.2 :=
        fun w' hw' => ⟨(hw w' hw').2.2.1, (hw w' hw').2.2.2⟩
      constructor
      · show wireAddrAux (base + 1) rest
          (fun p' => if p' = w.1 ∨ p' = w.2 then some base else m p') w.1 = some (base + 0)
        rw [wireAddrAux_not_mem rest (base + 1) _ hnm1]
        simp
      · show wireAddrAux (base + 1) rest
          (fun p' => if p' = w.1 ∨ p' = w.2 then some base else m p') w.2 = some (base + 0)
        rw [wireAddrAux_not_mem rest (base + 1) _ hnm2]
        simp
    | succ i =>
      have h' : i < rest.length := by simpa using h
      obtain ⟨ha, hb⟩ := wireAddrAux_spec rest (base + 1)
        (fun p' => if p' = w.1 ∨ p' = w.2 then some base else m p') hrest i h'
      constructor
      · show wireAddrAux (base + 1) rest
          (fun p' => if p' = w.1 ∨ p' = w.2 then some base else m p')
          ((rest.get ⟨i, h'⟩).1) = some (base + (i + 1))
        rw [ha]
        congr 1
        omega
      · show wireAddrAux (base + 1) rest
          (fun p' => if p' = w.1 ∨ p' = w.2 then some base else m p')
          ((rest.get ⟨i, h'⟩).2) = some (base + (i + 1))
        rw [hb]
        congr 1
        omega

/-- Master theorem for the synthesis section: it completes, and the
resulting wire list is pairwise endpoint-disjoint with every wire
joining two distinct components. -/
theorem synthesize_spec {W H F : Nat} (hF : 2 ≤ F) :
    ∃ g, synthesize W H F = some g ∧
      g.cellCount = W * H ∧
      g.relayCount = (W * H - F + 7) / 8 ∧
      g.patterns = (cells W H).map (fun xy => patternG W H xy.1 xy.2) ∧
      g.wires.Pairwise wireDisjoint ∧
      (∀ w ∈ g.wires, w.1.owner ≠ w.2.owner) := by
  obtain ⟨b, hb, hres⟩ := builderRun_spec (C := W * H) hF
  have hb' : build (W * H) (W * H) (initState F) = some b := hb
  obtain ⟨hA, hB, hC', hD, hE, hcase⟩ := hres
  -- facts about the builder's final state
  have hbundle : b.pushed.Nodup ∧ (∀ p ∈ b.pushed, BuilderOut p) ∧
      (b.wires.map Prod.snd).Nodup := by
    rcases hcase with ⟨hps, hends, _, _⟩ | ⟨_, _, _, hps, hends, _⟩
    · refine ⟨?_, ?_, ?_⟩
      · rw [hps]; exact pushed_full_nodup _ _
      · intro p hp; rw [hps] at hp; exact builderOut_of_mem_full hp
      · rw [hends]; exact relayIns_nodup _
    · refine ⟨?_, ?_, ?_⟩
      · rw [hps]; exact pushed_half_nodup _ _
      · intro p hp; rw [hps] at hp; exact builderOut_of_mem_half hp
      · rw [hends]; exact ends_half_nodup _
  obtain ⟨hpushedN, hpushedB, hendsN⟩ := hbundle
  rw [hB] at hpushedN
  have hqN : b.queue.Nodup := hpushedN.of_append_right
  have hpopN : b.popped.Nodup := hpushedN.of_append_left
  have hdisj : b.popped.Disjoint b.queue := List.disjoint_of_nodup_append hpushedN
  have hqB : ∀ p ∈ b.queue, BuilderOut p := fun p hp =>
    hpushedB p (by rw [hB]; exact List.mem_append_right _ hp)
  have hpopB : ∀ p ∈ b.popped, BuilderOut p := fun p hp =>
    hpushedB p (by rw [hB]; exact List.mem_append_left _ hp)
  -- the per-cell phase
  have hlenq : (cells W H).length ≤ b.queue.length := by
    rw [cells_length]
    have := Nat.mul_comm H W
    omega
  have hcells := runCells_spec W (cells W H) { queue := b.queue, wires := b.wires } hlenq
  refine ⟨{ relayCount := b.relayCount, cellCount := W * H,
            wires := b.wires ++ cellWiresIdx (b.queue.take (cells W H).length)
                       ((cells W H).map (fun xy => xy.2 * W + xy.1)),
            patterns := (cells W H).map (fun xy => patternG W H xy.1 xy.2) },
          ?_, rfl, hA, rfl, ?_, ?_⟩
  · simp only [synthesize, hb', hcells]
  · -- pairwise endpoint-disjointness of the final wire list
    rw [List.pairwise_append]
    refine ⟨?_, ?_, ?_⟩
    · refine pairwise_of_maps ?_ hendsN ?_
      · rw [← hC']; exact hpopN
      · intro w hw w' hw'
        obtain ⟨r, hr, _⟩ := hE w' hw'
        have hw1 : w.1 ∈ b.popped := by
          rw [hC']; exact List.mem_map_of_mem Prod.fst hw
        have hBw1 := builderOut_ne (hpopB _ hw1)
        rcases hr with h2 | h2 <;> rw [h2]
        · exact hBw1.2.2.2.1 r
        · exact hBw1.2.2.2.2 r
    · refine cellWiresIdx_pairwise _ _ (hqN.sublist (List.take_sublist _ _)) ?_ ?_
      · rw [cells_map_idx]; exact List.nodup_range _
      · exact fun p hp => hqB p (List.take_subset _ _ hp)
    · intro wb hwb wc hwc
      have hwb1 : wb.1 ∈ b.popped := by
        rw [hC']; exact List.mem_map_of_mem Prod.fst hwb
      have hBwb1 := builderOut_ne (hpopB _ hwb1)
      obtain ⟨r, hr, _⟩ := hE wb hwb
      rcases mem_cellWiresIdx _ _ hwc with ⟨q, hq, mm, hmm, rfl⟩ | ⟨mm, hmm, rfl⟩
      · have hqQ : q ∈ b.queue := List.take_subset _ _ hq
        have hBq := builderOut_ne (hqB q hqQ)
        simp only [wireDisjoint]
        refine ⟨fun he => hdisj hwb1 (he ▸ hqQ), fun he => hBwb1.1 mm he, ?_, ?_⟩
        · rcases hr with h2 | h2 <;> rw [h2]
          · exact fun he => hBq.2.2.2.1 r he.symm
          · exact fun he => hBq.2.2.2.2 r he.symm
        · rcases hr with h2 | h2 <;> rw [h2] <;> exact fun he => PortRef.noConfusion he
      · simp only [wireDisjoint]
        refine ⟨fun he => hBwb1.2.1 mm he, fun he => hBwb1.2.2.1 mm he, ?_, ?_⟩
        · rcases hr with h2 | h2 <;> rw [h2] <;> exact fun he => PortRef.noConfusion he
        · rcases hr with h2 | h2 <;> rw [h2] <;> exact fun he => PortRef.noConfusion he
  · -- every wire joins two distinct components
    intro w hw
    rcases List.mem_append.1 hw with hw | hw
    · obtain ⟨r, hr, hstart⟩ := hE w hw
      rcases hstart with ⟨i, hi, h1⟩ | ⟨r', hr', i, hi, h1 | h1⟩ <;>
        rcases hr with h2 | h2 <;> rw [h1, h2] <;> simp [PortRef.owner] <;> omega
    · rcases mem_cellWiresIdx _ _ hw with ⟨q, hq, mm, hmm, rfl⟩ | ⟨mm, hmm, rfl⟩
      · have hqQ : q ∈ b.queue := List.take_subset _ _ hq
        rcases hqB q hqQ with ⟨i, rfl⟩ | ⟨r', i, rfl⟩ | ⟨r', i, rfl⟩ <;>
          simp [PortRef.owner]
      · simp [PortRef.owner]

theorem range'_append_one (s m n : Nat) :
    List.range' s m ++ List.range' (s + m) n = List.range' s (m + n) := by
  have h := List.range'_append s m n 1
  rw [one_mul] at h
  rw [Nat.add_comm n m] at h
  exact h

/-! ## Claims -/

/-- Claim C1: for every target count `C = WIDTH*HEIGHT` and source
fan-out `F` (the spec requires `F ≥ 2`; the script's `Concat` has 5),
the builder loop terminates with at least `C` queued ports and creates
exactly the minimum number of splitters `k` with
`F + (fanout_per_splitter - 2) * k = F + 8k ≥ C`; in closed form
`k = ⌈(C - F) / 8⌉ = (C - F + 7) / 8` when `C > F`, and `0` otherwise. -/
theorem fanout_builder_minimal_splitters (C F : Nat) (hF : 2 ≤ F) :
    ∃ t, builderRun C F = some t ∧
      C ≤ t.queue.length ∧
      t.relayCount = (if C ≤ F then 0 else (C - F + 7) / 8) ∧
      C ≤ F + 8 * t.relayCount ∧
      (∀ j, C ≤ F + 8 * j → t.relayCount ≤ j) := by
  obtain ⟨t, hb, hres⟩ := builderRun_spec hF
  obtain ⟨hA, _, _, hD, _, _⟩ := hres
  refine ⟨t, hb, hD, ?_, ?_, ?_⟩
  · rw [hA]
    rcases le_or_lt C F with h | h
    · rw [if_pos h]
      omega
    · rw [if_neg (by omega)]
  · rw [hA]
    omega
  · intro j hj
    rw [hA]
    omega

theorem fanout_builder_minimal_splitters_witness :
    2 ≤ 5 ∧
    (∃ t, builderRun 576 5 = some t ∧
      576 ≤ t.queue.length ∧
      t.relayCount = (if 576 ≤ 5 then 0 else (576 - 5 + 7) / 8) ∧
      576 ≤ 5 + 8 * t.relayCount ∧
      (∀ j, 576 ≤ 5 + 8 * j → t.relayCount ≤ j)) :=
  ⟨by omega, fanout_builder_minimal_splitters 576 5 (by omega)⟩

/-- Claim C2: for every in-range grid cell `(x, y)`, the synthesized
pattern equals `'^'`, a skip of exactly `offset` characters (omitted
when `offset = 0`), a one-character anchor capture, a skip of exactly
`tail` characters (omitted when `tail = 0`), a lazy repetition of
8-character blocks, a back-reference to the anchor, and a 7-character
capture, with `offset = x + y*WIDTH`, `tail = WIDTH*HEIGHT - offset - 1`
and `offset + 1 + tail = WIDTH*HEIGHT`. -/
theorem pattern_offsets (x y : Nat) (hx : x < WIDTH) (hy : y < HEIGHT) :
    pattern x y
      = patternSpec (x + y * WIDTH) (WIDTH * HEIGHT - (x + y * WIDTH) - 1) ∧
    (x + y * WIDTH) + 1 + (WIDTH * HEIGHT - (x + y * WIDTH) - 1) = WIDTH * HEIGHT := by
  constructor
  · have h_a : "\\k<px>" ++ "(?<out>.\x7b7\x7d)" = "\\k<px>(?<out>.\x7b7\x7d)" := rfl
    have h_b : "(?:.\x7b8\x7d)*?" ++ "\\k<px>(?<out>.\x7b7\x7d)"
        = "(?:.\x7b8\x7d)*?\\k<px>(?<out>.\x7b7\x7d)" := rfl
    simp only [pattern, patternG, patternSpec, skipPart, String.append_assoc, h_a, h_b]
  · simp only [WIDTH, HEIGHT] at hx hy ⊢
    omega

theorem pattern_offsets_witness :
    (3 < WIDTH ∧ 2 < HEIGHT) ∧
    (pattern 3 2
        = patternSpec (3 + 2 * WIDTH) (WIDTH * HEIGHT - (3 + 2 * WIDTH) - 1) ∧
      (3 + 2 * WIDTH) + 1 + (WIDTH * HEIGHT - (3 + 2 * WIDTH) - 1) = WIDTH * HEIGHT) :=
  ⟨⟨by decide, by decide⟩, pattern_offsets 3 2 (by decide) (by decide)⟩

/-- Claim C3 is false on the code: when the queue reaches the target
after pushing a relay's `signal_out1` ports, the `signal_out2` ports
are *not* pushed.  Concretely, for target count 6 and fan-out 5 the
single relay's second input is unwired and `relayOut2 0 0` was never
enqueued (it is in neither the push history, the final queue, the
popped history, nor any wire). -/
theorem splitter_outputs_enqueued_cex :
    builderRun 6 5 = some halfRelayState ∧
    halfRelayState.relayCount = 1 ∧
    PortRef.relayIn2 0 ∉ halfRelayState.wires.map Prod.snd ∧
    PortRef.relayOut2 0 0 ∉ halfRelayState.pushed ∧
    PortRef.relayOut2 0 0 ∉ halfRelayState.queue ∧
    PortRef.relayOut2 0 0 ∉ halfRelayState.popped :=
  ⟨by decide, by decide, by decide, by decide, by decide, by decide⟩

/-- Claim C3 (amended): every splitter's first-branch output ports are
enqueued; its second-branch output ports are enqueued exactly when its
second input was wired (so only a trailing half-wired splitter lacks
them). -/
theorem splitter_outputs_enqueued_amended (C F : Nat) (hF : 2 ≤ F) :
    ∃ t, builderRun C F = some t ∧
      ∀ r, r < t.relayCount →
        (∀ i, i < 5 → PortRef.relayOut1 r i ∈ t.pushed) ∧
        ((∀ i, i < 5 → PortRef.relayOut2 r i ∈ t.pushed) ↔
          PortRef.relayIn2 r ∈ t.wires.map Prod.snd) := by
  obtain ⟨t, hb, hres⟩ := builderRun_spec hF
  obtain ⟨hA, _, _, _, _, hcase⟩ := hres
  refine ⟨t, hb, ?_⟩
  intro r hr
  rw [hA] at hr
  rcases hcase with ⟨hps, hends, _, _⟩ | ⟨hk1, _, _, hps, hends, _⟩
  · constructor
    · intro i hi
      rw [hps]
      exact List.mem_append_right _ (mem_relayPushes.2 ⟨r, hr, i, hi, Or.inl rfl⟩)
    · refine iff_of_true ?_ ?_
      · intro i hi
        rw [hps]
        exact List.mem_append_right _ (mem_relayPushes.2 ⟨r, hr, i, hi, Or.inr rfl⟩)
      · rw [hends]
        exact mem_relayIns.2 ⟨r, hr, Or.inr rfl⟩
  · by_cases hrl : r < (C - F + 7) / 8 - 1
    · constructor
      · intro i hi
        rw [hps]
        exact List.mem_append_left _
          (List.mem_append_right _ (mem_relayPushes.2 ⟨r, hrl, i, hi, Or.inl rfl⟩))
      · refine iff_of_true ?_ ?_
        · intro i hi
          rw [hps]
          exact List.mem_append_left _
            (List.mem_append_right _ (mem_relayPushes.2 ⟨r, hrl, i, hi, Or.inr rfl⟩))
        · rw [hends]
          exact List.mem_append_left _ (mem_relayIns.2 ⟨r, hrl, Or.inr rfl⟩)
    · have hreq : r = (C - F + 7) / 8 - 1 := by omega
      subst hreq
      constructor
      · intro i hi
        rw [hps]
        exact List.mem_append_right _ (mem_relayOut1Ports.2 ⟨i, hi, rfl⟩)
      · refine iff_of_false ?_ ?_
        · intro hcon
          have h0 := hcon 0 (by omega)
          rw [hps] at h0
          rcases List.mem_append.1 h0 with h0 | h0
          · rcases List.mem_append.1 h0 with h0 | h0
            · rcases mem_concatOutPorts.1 h0 with ⟨i, hi, h⟩
              cases h
            · rcases mem_relayPushes.1 h0 with ⟨r', hr', i, hi, h | h⟩
              · cases h
              · injection h
                omega
          · rcases mem_relayOut1Ports.1 h0 with ⟨i, hi, h⟩
            cases h
        · rw [hends]
          intro hcon
          rcases List.mem_append.1 hcon with h | h
          · rcases mem_relayIns.1 h with ⟨r', hr', h | h⟩
            · cases h
            · injection h
              omega
          · rcases List.mem_singleton.1 h with h
            cases h

theorem splitter_outputs_enqueued_amended_witness :
    2 ≤ 5 ∧
    (∃ t, builderRun 40 5 = some t ∧
      ∀ r, r < t.relayCount →
        (∀ i, i < 5 → PortRef.relayOut1 r i ∈ t.pushed) ∧
        ((∀ i, i < 5 → PortRef.relayOut2 r i ∈ t.pushed) ↔
          PortRef.relayIn2 r ∈ t.wires.map Prod.snd)) :=
  ⟨by omega, splitter_outputs_enqueued_amended 40 5 (by omega)⟩

/-- Claim C10: every splitter gets its first input wired; a splitter's
second input is wired exactly when the queue was still short after its
first-branch outputs were pushed (`F + 8r + 4 < C`), so only the last
splitter can be half-wired; and no dequeue ever sees an empty queue
(the run yields `some`, while an empty dequeue yields `none`). -/
theorem builder_input_wiring (C F : Nat) (hF : 2 ≤ F) :
    ∃ t, builderRun C F = some t ∧
      (∀ r, r < t.relayCount → PortRef.relayIn1 r ∈ t.wires.map Prod.snd) ∧
      (∀ r, r < t.relayCount →
        (PortRef.relayIn2 r ∈ t.wires.map Prod.snd ↔ F + 8 * r + 4 < C)) ∧
      (∀ r, r < t.relayCount → PortRef.relayIn2 r ∉ t.wires.map Prod.snd →
        r + 1 = t.relayCount) := by
  obtain ⟨t, hb, hres⟩ := builderRun_spec hF
  obtain ⟨hA, _, _, _, _, hcase⟩ := hres
  rcases hcase with ⟨hps, hends, hqlen, hcond⟩ | ⟨hk1, hlow, hhigh, hps, hends, hqlen⟩
  · refine ⟨t, hb, ?_, ?_, ?_⟩
    · intro r hr
      rw [hA] at hr
      rw [hends]
      exact mem_relayIns.2 ⟨r, hr, Or.inl rfl⟩
    · intro r hr
      rw [hA] at hr
      refine iff_of_true ?_ ?_
      · rw [hends]
        exact mem_relayIns.2 ⟨r, hr, Or.inr rfl⟩
      · rcases hcond with h0 | h0
        · omega
        · omega
    · intro r hr hcon
      rw [hA] at hr
      exact absurd (by rw [hends]; exact mem_relayIns.2 ⟨r, hr, Or.inr rfl⟩) hcon
  · refine ⟨t, hb, ?_, ?_, ?_⟩
    · intro r hr
      rw [hA] at hr
      rw [hends]
      by_cases hrl : r < (C - F + 7) / 8 - 1
      · exact List.mem_append_left _ (mem_relayIns.2 ⟨r, hrl, Or.inl rfl⟩)
      · have hreq : r = (C - F + 7) / 8 - 1 := by omega
        subst hreq
        exact List.mem_append_right _ (List.mem_singleton.2 rfl)
    · intro r hr
      rw [hA] at hr
      by_cases hrl : r < (C - F + 7) / 8 - 1
      · refine iff_of_true ?_ (by omega)
        rw [hends]
        exact List.mem_append_left _ (mem_relayIns.2 ⟨r, hrl, Or.inr rfl⟩)
      · have hreq : r = (C - F + 7) / 8 - 1 := by omega
        subst hreq
        refine iff_of_false ?_ (by omega)
        rw [hends]
        intro hcon
        rcases List.mem_append.1 hcon with h | h
        · rcases mem_relayIns.1 h with ⟨r', hr', h | h⟩
          · cases h
          · injection h
            omega
        · rcases List.mem_singleton.1 h with h
          cases h
    · intro r hr hcon
      rw [hA] at hr
      by_cases hrl : r < (C - F + 7) / 8 - 1
      · exact absurd (by
          rw [hends]
          exact List.mem_append_left _ (mem_relayIns.2 ⟨r, hrl, Or.inr rfl⟩)) hcon
      · rw [hA]
        omega

theorem builder_input_wiring_witness :
    2 ≤ 5 ∧
    (∃ t, builderRun 576 5 = some t ∧
      (∀ r, r < t.relayCount → PortRef.relayIn1 r ∈ t.wires.map Prod.snd) ∧
      (∀ r, r < t.relayCount →
        (PortRef.relayIn2 r ∈ t.wires.map Prod.snd ↔ 5 + 8 * r + 4 < 576)) ∧
      (∀ r, r < t.relayCount → PortRef.relayIn2 r ∉ t.wires.map Prod.snd →
        r + 1 = t.relayCount)) :=
  ⟨by omega, builder_input_wiring 576 5 (by omega)⟩

/-- Claim C4: after the assignment pass, the identities — all splitters
(creation order), then all extractors, then all sinks, then all wires —
form the strictly increasing, gapless sequence
`COMPONENT_ID_OFFSET, COMPONENT_ID_OFFSET + 1, ...` (i.e. exactly
`List.range' COMPONENT_ID_OFFSET total` with step 1), and each wire's
identity is copied onto both endpoint ports' `wire_id` fields. -/
theorem id_assignment_gapless (W H F : Nat) (g : SynthGraph) (hF : 2 ≤ F)
    (hg : synthesize W H F = some g) :
    relayIdList g ++ regexIdList g ++ lightIdList g ++ wireIdList g
      = List.range' COMPONENT_ID_OFFSET
          (g.relayCount + g.cellCount + g.cellCount + g.wires.length) ∧
    ∀ i (h : i < g.wires.length),
      wireAddr g ((g.wires.get ⟨i, h⟩).1) = some (offset_id g + i) ∧
      wireAddr g ((g.wires.get ⟨i, h⟩).2) = some (offset_id g + i) := by
  constructor
  · have e1 : relayIdList g = List.range' COMPONENT_ID_OFFSET g.relayCount := by
      rw [relayIdList, List.range'_eq_map_range]
    have e2 : regexIdList g
        = List.range' (COMPONENT_ID_OFFSET + g.relayCount) g.cellCount := by
      rw [regexIdList, List.range'_eq_map_range]
    have e3 : lightIdList g
        = List.range' (COMPONENT_ID_OFFSET + (g.relayCount + g.cellCount)) g.cellCount := by
      rw [lightIdList, List.range'_eq_map_range]
      congr 1
      funext i
      omega
    have e4 : wireIdList g
        = List.range' (COMPONENT_ID_OFFSET + (g.relayCount + g.cellCount + g.cellCount))
            g.wires.length := by
      rw [wireIdList, List.range'_eq_map_range]
      congr 1
      funext i
      simp only [offset_id]
      omega
    rw [e1, e2, e3, e4, range'_append_one, range'_append_one, range'_append_one]
  · obtain ⟨g', hg', _, _, _, hpw, _⟩ := synthesize_spec (W := W) (H := H) hF
    rw [hg] at hg'
    have hgg : g = g' := Option.some.inj hg'
    subst hgg
    intro i h
    exact wireAddrAux_spec g.wires (offset_id g) (fun _ => none) hpw i h

theorem id_assignment_gapless_witness :
    (2 ≤ 5 ∧ synthesize 2 1 5 = some sampleGraph) ∧
    (relayIdList sampleGraph ++ regexIdList sampleGraph ++ lightIdList sampleGraph
        ++ wireIdList sampleGraph
      = List.range' COMPONENT_ID_OFFSET
          (sampleGraph.relayCount + sampleGraph.cellCount + sampleGraph.cellCount
            + sampleGraph.wires.length) ∧
    ∀ i (h : i < sampleGraph.wires.length),
      wireAddr sampleGraph ((sampleGraph.wires.get ⟨i, h⟩).1)
          = some (offset_id sampleGraph + i) ∧
      wireAddr sampleGraph ((sampleGraph.wires.get ⟨i, h⟩).2)
          = some (offset_id sampleGraph + i)) :=
  ⟨⟨by omega, rfl⟩, id_assignment_gapless 2 1 5 sampleGraph (by omega) rfl⟩

/-- Claim C5: every wire created during synthesis joins ports of two
distinct components, and after assignment both endpoints' recorded
wire addresses equal the wire's own identity `offset_id + i`. -/
theorem wire_endpoints_wellformed (W H F : Nat) (g : SynthGraph) (hF : 2 ≤ F)
    (hg : synthesize W H F = some g) :
    ∀ i (h : i < g.wires.length),
      ((g.wires.get ⟨i, h⟩).1).owner ≠ ((g.wires.get ⟨i, h⟩).2).owner ∧
      wireAddr g ((g.wires.get ⟨i, h⟩).1) = some (offset_id g + i) ∧
      wireAddr g ((g.wires.get ⟨i, h⟩).2) = some (offset_id g + i) := by
  obtain ⟨g', hg', _, _, _, hpw, howner⟩ := synthesize_spec (W := W) (H := H) hF
  rw [hg] at hg'
  have hgg : g = g' := Option.some.inj hg'
  subst hgg
  intro i h
  obtain ⟨ha, hb⟩ := wireAddrAux_spec g.wires (offset_id g) (fun _ => none) hpw i h
  exact ⟨howner _ (g.wires.get_mem _ _), ha, hb⟩

theorem wire_endpoints_wellformed_witness :
    (2 ≤ 5 ∧ synthesize 2 1 5 = some sampleGraph) ∧
    (∀ i (h : i < sampleGraph.wires.length),
      ((sampleGraph.wires.get ⟨i, h⟩).1).owner ≠ ((sampleGraph.wires.get ⟨i, h⟩).2).owner ∧
      wireAddr sampleGraph ((sampleGraph.wires.get ⟨i, h⟩).1)
          = some (offset_id sampleGraph + i) ∧
      wireAddr sampleGraph ((sampleGraph.wires.get ⟨i, h⟩).2)
          = some (offset_id sampleGraph + i)) :=
  ⟨⟨by omega, rfl⟩, wire_endpoints_wellformed 2 1 5 sampleGraph (by omega) rfl⟩

/-- Claim C6: whenever the per-cell loop starts with at least
`WIDTH*HEIGHT` queued ports (the builder's postcondition), every
dequeue succeeds — the loop returns `some` (the exhausted-queue
`IndexError` branch is the `none` case and is never taken) — and it
consumes exactly one port per cell, in row-major order (`cells`
iterates `y` outer over `0..HEIGHT-1`, `x` inner over `0..WIDTH-1`). -/
theorem runCells_no_exhaustion (W H : Nat) (s : CellState)
    (h : W * H ≤ s.queue.length) :
    ∃ t, runCells W (cells W H) s = some t ∧
      t.queue = s.queue.drop (W * H) ∧
      t.queue.length + W * H = s.queue.length := by
  have hmul : H * W = W * H := Nat.mul_comm H W
  have hlen : (cells W H).length ≤ s.queue.length := by
    rw [cells_length]
    omega
  refine ⟨_, runCells_spec W (cells W H) s hlen, ?_, ?_⟩
  · show s.queue.drop (cells W H).length = s.queue.drop (W * H)
    rw [cells_length, hmul]
  · show (s.queue.drop (cells W H).length).length + W * H = s.queue.length
    rw [List.length_drop, cells_length]
    omega

theorem per_cell_wiring_no_exhaustion (s : CellState)
    (h : WIDTH * HEIGHT ≤ s.queue.length) :
    ∃ t, runCells WIDTH (cells WIDTH HEIGHT) s = some t ∧
      t.queue = s.queue.drop (WIDTH * HEIGHT) ∧
      t.queue.length + WIDTH * HEIGHT = s.queue.length :=
  runCells_no_exhaustion WIDTH HEIGHT s h

theorem per_cell_wiring_no_exhaustion_witness :
    WIDTH * HEIGHT ≤ (List.replicate 576 (PortRef.concatOut 0)).length ∧
    (∃ t, runCells WIDTH (cells WIDTH HEIGHT)
        { queue := List.replicate 576 (PortRef.concatOut 0), wires := [] } = some t ∧
      t.queue = (List.replicate 576 (PortRef.concatOut 0)).drop (WIDTH * HEIGHT) ∧
      t.queue.length + WIDTH * HEIGHT
        = (List.replicate 576 (PortRef.concatOut 0)).length) :=
  ⟨by rw [List.length_replicate]; decide,
   per_cell_wiring_no_exhaustion
     { queue := List.replicate 576 (PortRef.concatOut 0), wires := [] }
     (by rw [List.length_replicate]; decide)⟩

/-- Claim C7: synthesis is deterministic — two runs with the same
`W`, `H` and fan-out produce structurally identical graphs: the same
counts, the same wires, the same patterns, the same id lists and the
same wire-address assignment.  The synthesis section reads no source of
randomness, which the embedding reflects by being a pure function. -/
theorem synthesis_deterministic (W H F : Nat) (g₁ g₂ : SynthGraph)
    (h₁ : synthesize W H F = some g₁) (h₂ : synthesize W H F = some g₂) :
    g₁.relayCount = g₂.relayCount ∧ g₁.cellCount = g₂.cellCount ∧
    g₁.wires = g₂.wires ∧ g₁.patterns = g₂.patterns ∧
    relayIdList g₁ = relayIdList g₂ ∧ regexIdList g₁ = regexIdList g₂ ∧
    lightIdList g₁ = lightIdList g₂ ∧ wireIdList g₁ = wireIdList g₂ ∧
    wireAddr g₁ = wireAddr g₂ := by
  have hgg : g₁ = g₂ := Option.some.inj (h₁.symm.trans h₂)
  subst hgg
  exact ⟨rfl, rfl, rfl, rfl, rfl, rfl, rfl, rfl, rfl⟩

theorem synthesis_deterministic_witness :
    synthesize 2 1 5 = some sampleGraph ∧
    (sampleGraph.relayCount = sampleGraph.relayCount ∧
     sampleGraph.cellCount = sampleGraph.cellCount ∧
     sampleGraph.wires = sampleGraph.wires ∧
     sampleGraph.patterns = sampleGraph.patterns ∧
     relayIdList sampleGraph = relayIdList sampleGraph ∧
     regexIdList sampleGraph = regexIdList sampleGraph ∧
     lightIdList sampleGraph = lightIdList sampleGraph ∧
     wireIdList sampleGraph = wireIdList sampleGraph ∧
     wireAddr sampleGraph = wireAddr sampleGraph) :=
  ⟨rfl, synthesis_deterministic 2 1 5 sampleGraph sampleGraph rfl rfl⟩

/-- Claim C8: the run aborts with the failed resource-limit assert
exactly when the character-stream length exceeds
`MAX_FRAMES * WIDTH * HEIGHT`; otherwise it completes and produces the
graph.  The failing assert yields no graph at all — it fires before the
synthesis section creates any component or wire (beesub.py line 225
precedes line 252). -/
theorem resource_limit_check (n : Nat) :
    (script n = Except.error ScriptError.assertFailed
      ↔ MAX_FRAMES * WIDTH * HEIGHT < n) ∧
    ((∃ e, script n = Except.error e) ↔ MAX_FRAMES * WIDTH * HEIGHT < n) ∧
    ((∃ g, script n = Except.ok g) ↔ n ≤ MAX_FRAMES * WIDTH * HEIGHT) := by
  obtain ⟨g, hg, _⟩ := synthesize_spec (W := WIDTH) (H := HEIGHT) (F := 5) (by omega)
  by_cases h : n ≤ MAX_FRAMES * WIDTH * HEIGHT
  · have hscript : script n = Except.ok g := by
      simp only [script, if_pos h, hg]
    refine ⟨?_, ?_, ?_⟩
    · rw [hscript]
      constructor
      · intro hcon
        cases hcon
      · intro hlt
        omega
    · rw [hscript]
      constructor
      · rintro ⟨e, hcon⟩
        cases hcon
      · intro hlt
        omega
    · rw [hscript]
      exact ⟨fun _ => h, fun _ => ⟨g, rfl⟩⟩
  · have hscript : script n = Except.error ScriptError.assertFailed := by
      simp only [script, if_neg h]
    refine ⟨?_, ?_, ?_⟩
    · rw [hscript]
      exact ⟨fun _ => by omega, fun _ => rfl⟩
    · rw [hscript]
      exact ⟨fun _ => by omega, fun _ => ⟨ScriptError.assertFailed, rfl⟩⟩
    · rw [hscript]
      constructor
      · rintro ⟨g', hcon⟩
        cases hcon
      · intro hle
        omega

/-- Claim C9 is false on the code: `Node.x_coord`/`Node.y_coord` depend
only on the owning component, so an input port and an output port of
the same component render at the *same* coordinate, not at opposite
edges.  Concretely, relay 0's `signal_in1` and `signal_out1[0]`
coincide. -/
theorem port_coord_cex :
    PortRef.owner (PortRef.relayIn1 0) = PortRef.owner (PortRef.relayOut1 0 0) ∧
    portCoord WIDTH HEIGHT (PortRef.relayIn1 0)
      = portCoord WIDTH HEIGHT (PortRef.relayOut1 0 0) :=
  ⟨rfl, rfl⟩

/-- Claim C9 (amended): each port's rendered coordinate is derived from
its owning component's position and footprint as
`(x + w/2, y - h/2)`; consequently all ports of one component — inputs
and outputs alike — share a single rendered coordinate. -/
theorem port_coord_amended (W H : Nat) (p q : PortRef) (h : p.owner = q.owner) :
    portCoord W H p = portCoord W H q ∧
    portCoord W H p
      = (((compOfRef W H p.owner).x_coord : ℚ)
            + ((compOfRef W H p.owner).comp_width : ℚ) / 2,
         ((compOfRef W H p.owner).y_coord : ℚ)
            - ((compOfRef W H p.owner).comp_height : ℚ) / 2) := by
  constructor
  · simp only [portCoord, h]
  · rfl

theorem port_coord_amended_witness :
    (PortRef.relayIn2 3).owner = (PortRef.relayOut2 3 1).owner ∧
    (portCoord 32 18 (PortRef.relayIn2 3) = portCoord 32 18 (PortRef.relayOut2 3 1) ∧
     portCoord 32 18 (PortRef.relayIn2 3)
       = (((compOfRef 32 18 (PortRef.relayIn2 3).owner).x_coord : ℚ)
             + ((compOfRef 32 18 (PortRef.relayIn2 3).owner).comp_width : ℚ) / 2,
          ((compOfRef 32 18 (PortRef.relayIn2 3).owner).y_coord : ℚ)
             - ((compOfRef 32 18 (PortRef.relayIn2 3).owner).comp_height : ℚ) / 2)) :=
  ⟨rfl, port_coord_amended 32 18 (PortRef.relayIn2 3) (PortRef.relayOut2 3 1) rfl⟩

end Beesub
